import Mathlib

/-!
Verification development for the `checksum-action` utility (`src/main.go`).

The program walks a root directory with `filepath.WalkDir`, skips entries
whose root-relative path starts with one of the comma-separated `--ignore`
patterns, computes the SHA-1 digest of every remaining regular file, and
serializes the collected `(path, checksum)` pairs as indented JSON to a
file joined under the root directory.

Shallow embedding conventions:

* Go byte strings are modelled as Lean `String`s (lists of characters);
  byte-lexicographic order on valid UTF-8 coincides with code-point order,
  so character-level comparisons model Go's byte-level ones.
* File contents are `List Nat` (byte values).
* The filesystem is an explicit tree value `FsEntry`; a `readable := false`
  node models a file whose `os.ReadFile` fails, resp. a directory whose
  `os.ReadDir` fails during the walk.
* `filepath.WalkDir` composed with the program's callback is embedded as
  the fused recursion `walkEntry`/`walkChildren`; `os.ReadDir`'s guarantee
  of listing entries sorted by filename is embedded by pre-sorting every
  children list (`normalizeFs`) before walking.
* Fallible Go functions return `Except GoError _`; `fmt.Errorf` wrapping
  is modelled by `GoError` constructors carrying the wrapped cause.
-/

/-! ### SHA-1 (`crypto/sha1.Sum`) and lowercase hex (`encoding/hex.EncodeToString`) -/

/-- Byte sequences: each element is a byte value `< 256`. -/
abbrev Bytes := List Nat

/-- The 32-bit mask; SHA-1 works on 32-bit words. -/
def mask32 : Nat := 0xFFFFFFFF

/-- Left-rotation of a 32-bit word by `b` bits. -/
def rotl32 (x : Nat) (b : Nat) : Nat :=
  ((x <<< b) ||| (x >>> (32 - b))) &&& mask32

/-- SHA-1 message padding: append `0x80`, zero bytes up to 56 mod 64, then
the 8-byte big-endian bit length. -/
def padMessage (m : Bytes) : Bytes :=
  let ml := 8 * m.length
  let k := (119 - m.length % 64) % 64
  m ++ [0x80] ++ List.replicate k 0 ++ (List.range 8).map (fun i => (ml >>> (8 * (7 - i))) &&& 255)

/-- The sixteen big-endian 32-bit words of one 64-byte chunk. -/
def toWords (chunk : Bytes) : List Nat :=
  (List.range 16).map (fun i =>
    ((chunk.getD (4 * i) 0) <<< 24) ||| ((chunk.getD (4 * i + 1) 0) <<< 16) |||
    ((chunk.getD (4 * i + 2) 0) <<< 8) ||| (chunk.getD (4 * i + 3) 0))

/-- One step of the SHA-1 message-schedule extension: append
`rotl1 (w[n-3] xor w[n-8] xor w[n-14] xor w[n-16])`. -/
def extendStep (ws : List Nat) : List Nat :=
  let n := ws.length
  ws ++ [rotl32 ((ws.getD (n - 3) 0) ^^^ (ws.getD (n - 8) 0) ^^^ (ws.getD (n - 14) 0) ^^^ (ws.getD (n - 16) 0)) 1]

/-- The five 32-bit state words `(a, b, c, d, e)` of SHA-1. -/
abbrev Sha1State := Nat × Nat × Nat × Nat × Nat

/-- One of the 80 SHA-1 rounds, with round-dependent function and constant. -/
def sha1Round (st : Sha1State) (i : Nat) (w : Nat) : Sha1State :=
  let (a, b, c, d, e) := st
  let f :=
    if i < 20 then (b &&& c) ||| ((b ^^^ mask32) &&& d)
    else if i < 40 then b ^^^ c ^^^ d
    else if i < 60 then (b &&& c) ||| (b &&& d) ||| (c &&& d)
    else b ^^^ c ^^^ d
  let k :=
    if i < 20 then 0x5A827999
    else if i < 40 then 0x6ED9EBA1
    else if i < 60 then 0x8F1BBCDC
    else 0xCA62C1D6
  let temp := (rotl32 a 5 + f + e + k + w) &&& mask32
  (temp, a, rotl32 b 30, c, d)

/-- Process one 64-byte chunk: extend 16 words to 80, run the 80 rounds,
and add the result into the running state, all modulo `2^32`. -/
def processChunk (h : Sha1State) (chunk : Bytes) : Sha1State :=
  let ws := (List.range 64).foldl (fun ws _ => extendStep ws) (toWords chunk)
  let (h0, h1, h2, h3, h4) := h
  let (a, b, c, d, e) := ws.enum.foldl (fun st iw => sha1Round st iw.1 iw.2) (h0, h1, h2, h3, h4)
  ((h0 + a) &&& mask32, (h1 + b) &&& mask32, (h2 + c) &&& mask32, (h3 + d) &&& mask32, (h4 + e) &&& mask32)

/-- SHA-1 of a byte sequence, as the five final state words. -/
def sha1Words (m : Bytes) : Sha1State :=
  let padded := padMessage m
  (List.range (padded.length / 64)).foldl
    (fun h i => processChunk h ((padded.drop (64 * i)).take 64))
    (0x67452301, 0xEFCDAB89, 0x98BADCFE, 0x10325476, 0xC3D2E1F0)

/-- The four big-endian bytes of a 32-bit word. -/
def wordBytes (w : Nat) : Bytes :=
  [(w >>> 24) &&& 255, (w >>> 16) &&& 255, (w >>> 8) &&& 255, w &&& 255]

/-- The 20-byte SHA-1 digest, models `sha1.Sum(data)` (`src/main.go:65`). -/
def sha1Sum (m : Bytes) : Bytes :=
  let (h0, h1, h2, h3, h4) := sha1Words m
  wordBytes h0 ++ wordBytes h1 ++ wordBytes h2 ++ wordBytes h3 ++ wordBytes h4

/-- The two lowercase hex digits of each byte, in order. -/
def hexChars (bs : Bytes) : List Char :=
  bs.flatMap (fun b => [Nat.digitChar (b / 16 % 16), Nat.digitChar (b % 16)])

/-- Models `hex.EncodeToString` (`src/main.go:67`): lowercase hexadecimal. -/
def hexEncodeToString (bs : Bytes) : String := String.mk (hexChars bs)

/-- The checksum string of a byte content: `hex.EncodeToString(sha1.Sum(data)[:])`
(`src/main.go:65-67`). -/
def sha1Hex (m : Bytes) : String := hexEncodeToString (sha1Sum m)

/-- The bytes of an ASCII string (for ASCII, UTF-8 bytes = character codes). -/
def strBytes (s : String) : Bytes := s.data.map Char.toNat

/-! ### Records and errors -/

/-- The `FileChecksum` struct (`src/main.go:15-18`) with its two JSON-tagged
string fields `path` and `checksum`. -/
structure FileChecksum where
  path : String
  checksum : String
  deriving DecidableEq, Repr

/-- Go `error` values produced by the program.  `osError op path` models an
underlying `*fs.PathError` from the standard library (failed `os.ReadFile`
or `os.ReadDir`); `checksumFailed` models the wrapping
`fmt.Errorf("failed to calculate checksum for %s: %w", path, err)`
(`src/main.go:99`); `walkFailed` models the wrapping
`fmt.Errorf("error walking the directory: %w", err)` (`src/main.go:116`). -/
inductive GoError where
  | osError (op : String) (path : String)
  | checksumFailed (path : String) (cause : GoError)
  | walkFailed (cause : GoError)
  deriving DecidableEq, Repr

deriving instance DecidableEq for Except

/-! ### Go string primitives used by the program -/

/-- Go byte-lexicographic `<` on strings, at the character level (UTF-8 byte
order equals code-point order, so this models Go's byte comparison). -/
def goLtChars : List Char → List Char → Bool
  | [], [] => false
  | [], _ :: _ => true
  | _ :: _, [] => false
  | a :: as, b :: bs =>
    if a.toNat < b.toNat then true
    else if b.toNat < a.toNat then false
    else goLtChars as bs

/-- Go `<` on strings. -/
def goStringLt (a b : String) : Bool := goLtChars a.data b.data

/-- Models `strings.Split(s, sep)` for a one-character separator: the helper
walks the characters accumulating the current field. -/
def splitChars (sep : Char) : List Char → List Char → List String
  | [], cur => [String.mk cur.reverse]
  | c :: rest, cur =>
    if c = sep then String.mk cur.reverse :: splitChars sep rest []
    else splitChars sep rest (c :: cur)

/-- Models `strings.Split` (`src/main.go:30`) with separator `","`. -/
def stringsSplit (s : String) (sep : Char) : List String := splitChars sep s.data []

/-! ### The filesystem model -/

/-- A filesystem tree.  `file readable content` is a regular file whose
`os.ReadFile` succeeds with `content` iff `readable`; `dir readable children`
is a directory whose `os.ReadDir` succeeds listing `children` iff
`readable`. -/
inductive FsEntry where
  | file (readable : Bool) (content : Bytes)
  | dir (readable : Bool) (children : List (String × FsEntry))
  deriving Repr

/-- Name order on directory entries: `a` may precede `b` when `b`'s name is
not Go-less-than `a`'s. -/
def nameLe (a b : String × FsEntry) : Prop := goStringLt b.1 a.1 = false

instance : DecidableRel nameLe := fun _ _ => inferInstanceAs (Decidable (_ = false))

/-- Sort a directory listing by filename, as `os.ReadDir` guarantees. -/
def sortByName (l : List (String × FsEntry)) : List (String × FsEntry) :=
  List.insertionSort nameLe l

mutual
/-- Sort every directory listing in the tree by filename; the walk over the
normalized tree models `filepath.WalkDir`, which visits each directory's
entries in the sorted order returned by `os.ReadDir`. -/
def normalizeFs : FsEntry → FsEntry
  | .file r c => .file r c
  | .dir r children => .dir r (sortByName (normalizeChildren children))

/-- Normalize each entry of a children list. -/
def normalizeChildren : List (String × FsEntry) → List (String × FsEntry)
  | [] => []
  | (n, e) :: rest => (n, normalizeFs e) :: normalizeChildren rest
end

/-- The root-relative path of a visited entry, as `filepath.Rel(rootDir, path)`
produces it on a POSIX system: `"."` for the root itself, otherwise the
segments joined by `"/"`. -/
def relString : List String → String
  | [] => "."
  | segs => String.intercalate "/" segs

/-- The absolute path of a visited entry, as `filepath.WalkDir` builds it by
joining the root with each entry name. -/
def joinPath (root : String) : List String → String
  | [] => root
  | segs => root ++ "/" ++ String.intercalate "/" segs

/-- Models `isIgnored` (`src/main.go:122-136`) applied to the already-computed
relative path: true iff `strings.HasPrefix(relativePath, pattern)` for some
pattern, i.e. some pattern's characters are a prefix of the path's.  (The
source also returns an error when `filepath.Rel` fails, which cannot happen
for the paths the walk itself produced.) -/
def isIgnored (relativePath : String) (ignorePatterns : List String) : Bool :=
  ignorePatterns.any (fun pattern => pattern.data.isPrefixOf relativePath.data)

/-- The outcome of `os.ReadFile` on a file node of the tree. -/
def readFileResult (root : String) (segs : List String) (readable : Bool) (content : Bytes) :
    Except GoError Bytes :=
  if readable then .ok content else .error (.osError "open" (joinPath root segs))

/-- Models `generateSHA1Checksum` (`src/main.go:58-68`): on a successful read
the checksum is `hex.EncodeToString(sha1.Sum(data)[:])`; a failed read
returns the underlying error unchanged. -/
def generateSHA1Checksum (readResult : Except GoError Bytes) : Except GoError String :=
  match readResult with
  | .error e => .error e
  | .ok data => .ok (sha1Hex data)

mutual
/-- `filepath.WalkDir` fused with the callback of `calculateChecksums`
(`src/main.go:73-113`), at one visited entry:

* if the entry's relative path is ignored, a file is skipped (`return nil`,
  `src/main.go:89`) and a directory is pruned (`return filepath.SkipDir`,
  `src/main.go:86`), which the walk converts to continuing with siblings;
* a non-ignored directory produces no manifest entry (`src/main.go:92-94`)
  and the walk descends into its children; if its `os.ReadDir` fails the
  walk reports the error to the callback, which returns it (`src/main.go:74-76`);
* a non-ignored file is hashed; a read failure is wrapped with the offending
  path (`src/main.go:96-100`), otherwise the `(relativePath, checksum)` pair
  is appended to the accumulator (`src/main.go:102-112`). -/
def walkEntry (root : String) (pats : List String) (segs : List String)
    (e : FsEntry) (acc : List FileChecksum) : Except GoError (List FileChecksum) :=
  match e with
  | .file readable content =>
    if isIgnored (relString segs) pats then .ok acc
    else
      match generateSHA1Checksum (readFileResult root segs readable content) with
      | .error err => .error (.checksumFailed (joinPath root segs) err)
      | .ok checksum => .ok (acc ++ [⟨relString segs, checksum⟩])
  | .dir readable children =>
    if isIgnored (relString segs) pats then .ok acc
    else if readable then walkChildren root pats segs children acc
    else .error (.osError "open" (joinPath root segs))

/-- Walk the entries of a directory in order, threading the accumulator and
stopping at the first error, as `filepath.WalkDir`'s loop over a directory's
entries does. -/
def walkChildren (root : String) (pats : List String) (segs : List String)
    (children : List (String × FsEntry)) (acc : List FileChecksum) :
    Except GoError (List FileChecksum) :=
  match children with
  | [] => .ok acc
  | (name, child) :: rest =>
    match walkEntry root pats (segs ++ [name]) child acc with
    | .error e => .error e
    | .ok acc2 => walkChildren root pats segs rest acc2
end

/-- Models `calculateChecksums` (`src/main.go:70-120`): walk the normalized
tree from the root with an empty accumulator; any error of the walk is
wrapped as a walk error and no manifest is returned (the Go code returns a
`nil` slice alongside the error). -/
def calculateChecksums (rootDir : String) (fsv : FsEntry) (ignorePatterns : List String) :
    Except GoError (List FileChecksum) :=
  match walkEntry rootDir ignorePatterns [] (normalizeFs fsv) [] with
  | .error e => .error (.walkFailed e)
  | .ok cs => .ok cs

/-! ### JSON serialization (`saveToFile`, `src/main.go:138-150`) -/

/-- A JSON value, as far as this program's output shape needs. -/
inductive Json where
  | null
  | str (s : String)
  | arr (elems : List Json)
  | obj (fields : List (String × Json))

/-- The JSON object of one `FileChecksum`: exactly the two string fields
`"path"` and `"checksum"`, in struct order (Go encodes struct fields in
declaration order, under their `json:"..."` tags). -/
def entryToJson (c : FileChecksum) : Json :=
  .obj [("path", .str c.path), ("checksum", .str c.checksum)]

/-- The JSON value `json.Marshal` produces for the manifest slice: Go
marshals a `nil` slice — which is what an entry-less run returns — as
`null`, and a non-empty slice as an array of entry objects. -/
def manifestToJson : List FileChecksum → Json
  | [] => .null
  | cs => .arr (cs.map entryToJson)

/-- Decode one manifest entry: exactly an object with the two string fields
`"path"` and `"checksum"`. -/
def decodeEntry : Json → Option FileChecksum
  | .obj [("path", .str p), ("checksum", .str s)] => some ⟨p, s⟩
  | _ => none

/-- Decode a list of manifest entries, failing if any entry fails. -/
def decodeEntries : List Json → Option (List FileChecksum)
  | [] => some []
  | j :: rest =>
    match decodeEntry j, decodeEntries rest with
    | some c, some cs => some (c :: cs)
    | _, _ => none

/-- Decode a serialized manifest back into its records (`null` decodes to
the empty sequence, as Go unmarshals it to a nil slice). -/
def decodeManifest : Json → Option (List FileChecksum)
  | .null => some []
  | .arr es => decodeEntries es
  | _ => none

/-- Go's JSON string escaping (`encoding/json` with default HTML escaping):
quote, backslash, newline, carriage return, tab, other control characters,
`<`, `>`, `&`, and U+2028/U+2029 are escaped; everything else is literal. -/
def escapeChar (c : Char) : List Char :=
  if c = '"' then ['\\', '"']
  else if c = '\\' then ['\\', '\\']
  else if c = '\n' then ['\\', 'n']
  else if c = '\r' then ['\\', 'r']
  else if c = '\t' then ['\\', 't']
  else if c = '<' then ['\\', 'u', '0', '0', '3', 'c']
  else if c = '>' then ['\\', 'u', '0', '0', '3', 'e']
  else if c = '&' then ['\\', 'u', '0', '0', '2', '6']
  else if c.toNat < 32 then
    ['\\', 'u', '0', '0', Nat.digitChar (c.toNat / 16), Nat.digitChar (c.toNat % 16)]
  else if c.toNat = 8232 then ['\\', 'u', '2', '0', '2', '8']
  else if c.toNat = 8233 then ['\\', 'u', '2', '0', '2', '9']
  else [c]

/-- A JSON string literal with Go's escaping. -/
def quoteGo (s : String) : String :=
  "\"" ++ String.mk (s.data.flatMap escapeChar) ++ "\""

/-- The text `json.MarshalIndent(c, ...)` produces for one entry at one level
of indentation inside the array: an object whose two fields each sit on
their own line indented by two more spaces. -/
def renderEntry (c : FileChecksum) : String :=
  "  \x7b\n    \"path\": " ++ quoteGo c.path ++ ",\n    \"checksum\": " ++ quoteGo c.checksum ++ "\n  \x7d"

/-- Models `json.MarshalIndent(checksums, "", "  ")` (`src/main.go:139`):
the manifest rendered as indented JSON text with two-space indentation
(`null` for the nil slice an entry-less run produces). -/
def marshalIndentManifest : List FileChecksum → String
  | [] => "null"
  | cs => "[\n" ++ String.intercalate ",\n" (cs.map renderEntry) ++ "\n]"

/-- Models `saveToFile` (`src/main.go:138-150`): the byte content durably
written to the output file.  (`json.MarshalIndent` cannot fail on this
fixed two-string-field shape, and a failing `os.WriteFile` is outside the
tree model; both failure branches only wrap and return the error.) -/
def saveToFile (checksums : List FileChecksum) : String :=
  marshalIndentManifest checksums

/-! ### The entry point (`main`, `src/main.go:20-56`) -/

/-- The default of the `--output` flag (`src/main.go:22`). -/
def defaultOutputFile : String := "checksums.json"

/-- Models `filepath.Join(projectDir, outputFile)` (`src/main.go:49`) for a
clean absolute directory and a clean relative element: concatenation with a
single separator. -/
def filepathJoin (dir name : String) : String := dir ++ "/" ++ name

/-- Models `main` (`src/main.go:20-56`) after flag parsing and path
resolution: `projectDir` is the already-absolute root (`filepath.Abs`,
`src/main.go:33`), `outputFlag` is the `--output` value when supplied,
`ignoreFlag` the raw `--ignore` value, and `fsv` the tree at the root.
The result is `none` when no output file is written (checksum calculation
failed), otherwise the absolute output path together with the manifest
that `saveToFile` serializes there. -/
def mainRun (projectDir : String) (outputFlag : Option String) (ignoreFlag : String)
    (fsv : FsEntry) : Option (String × List FileChecksum) :=
  let ignorePatterns := if ignoreFlag = "" then [] else stringsSplit ignoreFlag ','
  match calculateChecksums projectDir fsv ignorePatterns with
  | .error _ => none
  | .ok checksums => some (filepathJoin projectDir (outputFlag.getD defaultOutputFile), checksums)

/-! ### Spec-level predicates -/

/-- `IsFileAt e segs b`: following the child names `segs` from `e` reaches a
readable regular file with content `b`. -/
inductive IsFileAt : FsEntry → List String → Bytes → Prop
  | file (b : Bytes) : IsFileAt (.file true b) [] b
  | child {name : String} {e : FsEntry} {children : List (String × FsEntry)}
      {rest : List String} {b : Bytes} {r : Bool}
      (hmem : (name, e) ∈ children) (h : IsFileAt e rest b) :
      IsFileAt (.dir r children) (name :: rest) b

mutual
/-- The tree consists only of readable directories (no files at all). -/
def onlyDirs : FsEntry → Bool
  | .file _ _ => false
  | .dir r children => r && onlyDirsList children

/-- Every entry of the children list consists only of readable directories. -/
def onlyDirsList : List (String × FsEntry) → Bool
  | [] => true
  | (_, e) :: rest => onlyDirs e && onlyDirsList rest
end

/-! ### Helper lemmas: hex rendering -/

/-- The sixteen lowercase hexadecimal digits. -/
def hexDigitChars : List Char := "0123456789abcdef".data

theorem digitChar_mem_hex : ∀ n < 16, Nat.digitChar n ∈ hexDigitChars := by decide

theorem length_hexChars (bs : Bytes) : (hexChars bs).length = 2 * bs.length := by
  induction bs with
  | nil => rfl
  | cons b bs ih =>
    simp only [hexChars, List.flatMap_cons, List.length_append, List.length_cons,
      List.length_nil] at ih ⊢
    omega

theorem mem_hexChars {c : Char} {bs : Bytes} (h : c ∈ hexChars bs) : c ∈ hexDigitChars := by
  induction bs with
  | nil => simp [hexChars] at h
  | cons b bs ih =>
    simp only [hexChars, List.flatMap_cons, List.mem_append, List.mem_cons] at h
    rcases h with (h | h | h) | h
    · exact h ▸ digitChar_mem_hex _ (Nat.mod_lt _ (by omega))
    · exact h ▸ digitChar_mem_hex _ (Nat.mod_lt _ (by omega))
    · simp at h
    · exact ih (by simpa [hexChars] using h)

theorem sha1Sum_length (m : Bytes) : (sha1Sum m).length = 20 := by
  rw [sha1Sum]
  rcases sha1Words m with ⟨a, b, c, d, e⟩
  simp [wordBytes]

theorem sha1Hex_length (m : Bytes) : (sha1Hex m).length = 40 := by
  have h1 := length_hexChars (sha1Sum m)
  have h2 := sha1Sum_length m
  show (hexChars (sha1Sum m)).length = 40
  omega

theorem sha1Hex_data_mem (m : Bytes) : ∀ c ∈ (sha1Hex m).data, c ∈ hexDigitChars :=
  fun _ h => mem_hexChars h

/-! ### Helper lemmas: ignore patterns -/

theorem isIgnored_iff (relativePath : String) (pats : List String) :
    isIgnored relativePath pats = true ↔ ∃ p ∈ pats, p.data <+: relativePath.data := by
  simp [isIgnored, List.any_eq_true, List.isPrefixOf_iff_prefix]

theorem empty_isPrefixOf (s : String) : "".data.isPrefixOf s.data = true := by
  cases h : s.data <;> rfl

theorem isIgnored_of_empty_mem {pats : List String} (h : "" ∈ pats) (rel : String) :
    isIgnored rel pats = true := by
  simp only [isIgnored, List.any_eq_true]
  exact ⟨"", h, empty_isPrefixOf rel⟩

/-! ### Helper lemmas: JSON round trip -/

theorem decodeEntries_map (cs : List FileChecksum) :
    decodeEntries (cs.map entryToJson) = some cs := by
  induction cs with
  | nil => rfl
  | cons c rest ih => simp [decodeEntries, ih, decodeEntry, entryToJson]

theorem decodeManifest_roundtrip (cs : List FileChecksum) :
    decodeManifest (manifestToJson cs) = some cs := by
  cases cs with
  | nil => rfl
  | cons c rest => simpa [manifestToJson, decodeManifest] using decodeEntries_map (c :: rest)

/-! ### Helper lemmas: the filename order -/

theorem goLtChars_irrefl : ∀ a : List Char, goLtChars a a = false := by
  intro a
  induction a with
  | nil => rfl
  | cons x as ih => simp [goLtChars, ih]

theorem goLtChars_asymm : ∀ a b : List Char, goLtChars a b = true → goLtChars b a = false := by
  intro a
  induction a with
  | nil =>
    intro b h
    cases b with
    | nil => simp [goLtChars] at h
    | cons y bs => rfl
  | cons x as ih =>
    intro b h
    cases b with
    | nil => simp [goLtChars] at h
    | cons y bs =>
      simp only [goLtChars] at h ⊢
      split_ifs at h ⊢ with h1 h2 h3 <;> first
        | omega
        | rfl
        | (exact ih bs h)

theorem goLtChars_le_trans :
    ∀ a b c : List Char, goLtChars b a = false → goLtChars c b = false →
      goLtChars c a = false := by
  intro a
  induction a with
  | nil =>
    intro b c _ _
    cases c with
    | nil => rfl
    | cons z cs => cases b with
      | nil => assumption
      | cons y bs => simp [goLtChars] at *
  | cons x as ih =>
    intro b c hba hcb
    cases b with
    | nil => simp [goLtChars] at hba
    | cons y bs =>
      cases c with
      | nil => simp [goLtChars] at hcb
      | cons z cs =>
        simp only [goLtChars] at hba hcb ⊢
        split_ifs at hba hcb ⊢ with h1 h2 h3 h4 h5 h6 <;> try omega
        all_goals try rfl
        all_goals try simp_all
        exact ih bs cs hba hcb

theorem nameLe_total : ∀ a b : String × FsEntry, nameLe a b ∨ nameLe b a := by
  intro a b
  unfold nameLe goStringLt
  rcases h : goLtChars b.1.data a.1.data with _ | _
  · exact Or.inl rfl
  · exact Or.inr (goLtChars_asymm _ _ h)

theorem nameLe_trans : ∀ a b c : String × FsEntry, nameLe a b → nameLe b c → nameLe a c := by
  intro a b c hab hbc
  exact goLtChars_le_trans _ _ _ hab hbc

theorem sortByName_perm (l : List (String × FsEntry)) : (sortByName l).Perm l :=
  List.perm_insertionSort nameLe l

theorem sortByName_sorted (l : List (String × FsEntry)) : List.Sorted nameLe (sortByName l) := by
  haveI : IsTotal (String × FsEntry) nameLe := ⟨nameLe_total⟩
  haveI : IsTrans (String × FsEntry) nameLe := ⟨nameLe_trans⟩
  exact List.sorted_insertionSort nameLe l

theorem mem_sortByName {p : String × FsEntry} {l : List (String × FsEntry)} :
    p ∈ sortByName l ↔ p ∈ l :=
  (sortByName_perm l).mem_iff

/-! ### Helper lemmas: normalization -/

theorem mem_normalizeChildren {n : String} {e : FsEntry} :
    ∀ {l : List (String × FsEntry)}, (n, e) ∈ normalizeChildren l →
      ∃ e₀, (n, e₀) ∈ l ∧ e = normalizeFs e₀ := by
  intro l h
  induction l with
  | nil => simp [normalizeChildren] at h
  | cons p rest ih =>
    rcases p with ⟨n₀, e₀⟩
    simp only [normalizeChildren, List.mem_cons, Prod.mk.injEq] at h
    rcases h with ⟨rfl, rfl⟩ | h
    · exact ⟨e₀, List.mem_cons_self _ _, rfl⟩
    · obtain ⟨e₁, hmem, he⟩ := ih h
      exact ⟨e₁, List.mem_cons_of_mem _ hmem, he⟩

theorem isFileAt_normalize : ∀ (p : List String) (e : FsEntry) (b : Bytes),
    IsFileAt (normalizeFs e) p b → IsFileAt e p b := by
  intro p
  induction p with
  | nil =>
    intro e b h
    cases e with
    | file r c =>
      simp only [normalizeFs] at h
      cases h
      exact .file _
    | dir r children =>
      simp only [normalizeFs] at h
      cases h
  | cons n p ih =>
    intro e b h
    cases e with
    | file r c =>
      simp only [normalizeFs] at h
      cases h
    | dir r children =>
      simp only [normalizeFs] at h
      cases h with
      | child hmem hrec =>
        rw [mem_sortByName] at hmem
        obtain ⟨e₀, hmem₀, rfl⟩ := mem_normalizeChildren hmem
        exact .child hmem₀ (ih e₀ b hrec)

/-! ### Helper lemmas: directory-only trees -/

theorem onlyDirsList_eq_all (l : List (String × FsEntry)) :
    onlyDirsList l = l.all (fun p => onlyDirs p.2) := by
  induction l with
  | nil => rfl
  | cons p rest ih => rcases p with ⟨n, e⟩; simp [onlyDirsList, List.all_cons, ih]

theorem onlyDirsList_perm {l₁ l₂ : List (String × FsEntry)} (h : l₁.Perm l₂) :
    onlyDirsList l₁ = onlyDirsList l₂ := by
  rw [onlyDirsList_eq_all, onlyDirsList_eq_all]
  rcases hb : l₂.all (fun p => onlyDirs p.2) with _ | _
  · rw [List.all_eq_false] at hb ⊢
    obtain ⟨x, hx, hfx⟩ := hb
    exact ⟨x, h.mem_iff.mpr hx, hfx⟩
  · rw [List.all_eq_true] at hb ⊢
    exact fun x hx => hb x (h.mem_iff.mp hx)

theorem onlyDirs_normalize : ∀ e : FsEntry, onlyDirs (normalizeFs e) = onlyDirs e := by
  refine normalizeFs.induct (fun e => onlyDirs (normalizeFs e) = onlyDirs e)
    (fun l => onlyDirsList (normalizeChildren l) = onlyDirsList l) ?_ ?_ ?_ ?_
  · intro r c
    rfl
  · intro r children ih
    calc onlyDirs (normalizeFs (.dir r children))
        = (r && onlyDirsList (sortByName (normalizeChildren children))) := by
          simp [normalizeFs, onlyDirs]
      _ = (r && onlyDirsList (normalizeChildren children)) := by
          rw [onlyDirsList_perm (sortByName_perm _)]
      _ = (r && onlyDirsList children) := by rw [ih]
      _ = onlyDirs (.dir r children) := by simp [onlyDirs]
  · rfl
  · intro n e rest ih1 ih2
    simp [normalizeChildren, onlyDirsList, ih1, ih2]

theorem walkEntry_onlyDirs (root : String) (pats : List String) :
    ∀ e : FsEntry, onlyDirs e = true →
      ∀ segs acc, walkEntry root pats segs e acc = .ok acc := by
  refine normalizeFs.induct
    (fun e => onlyDirs e = true → ∀ segs acc, walkEntry root pats segs e acc = .ok acc)
    (fun l => onlyDirsList l = true →
      ∀ segs acc, walkChildren root pats segs l acc = .ok acc) ?_ ?_ ?_ ?_
  · intro r c h
    simp [onlyDirs] at h
  · intro r children ih h segs acc
    rw [onlyDirs, Bool.and_eq_true] at h
    by_cases hig : isIgnored (relString segs) pats
    · simp [walkEntry, hig]
    · simp only [walkEntry, hig, if_false, h.1, if_true, Bool.false_eq_true]
      exact ih h.2 segs acc
  · intro _ segs acc
    rfl
  · intro n e rest ih1 ih2 h segs acc
    rw [onlyDirsList, Bool.and_eq_true] at h
    simp only [walkChildren, ih1 h.1 (segs ++ [n]) acc]
    exact ih2 h.2 segs acc

theorem calculateChecksums_onlyDirs (root : String) (pats : List String) (fs : FsEntry)
    (h : onlyDirs fs = true) : calculateChecksums root fs pats = .ok [] := by
  unfold calculateChecksums
  rw [walkEntry_onlyDirs root pats (normalizeFs fs) (by rw [onlyDirs_normalize]; exact h) [] []]

/-! ### Helper lemmas: every manifest entry is a hashed file -/

theorem walkEntry_ok_mem (root : String) (pats : List String) :
    ∀ segs e acc, ∀ cs, walkEntry root pats segs e acc = Except.ok cs →
      ∀ c ∈ cs, c ∈ acc ∨ ∃ rest b, IsFileAt e rest b ∧
        c = ⟨relString (segs ++ rest), sha1Hex b⟩ := by
  refine walkEntry.induct root pats
    (fun segs e acc => ∀ cs, walkEntry root pats segs e acc = Except.ok cs →
      ∀ c ∈ cs, c ∈ acc ∨ ∃ rest b, IsFileAt e rest b ∧
        c = ⟨relString (segs ++ rest), sha1Hex b⟩)
    (fun segs children acc => ∀ cs, walkChildren root pats segs children acc = Except.ok cs →
      ∀ c ∈ cs, c ∈ acc ∨ ∃ name e rest b, (name, e) ∈ children ∧ IsFileAt e rest b ∧
        c = ⟨relString (segs ++ name :: rest), sha1Hex b⟩)
    ?_ ?_ ?_ ?_ ?_ ?_ ?_ ?_ ?_
  · -- ignored file: skipped, accumulator unchanged
    intro segs acc r content hig cs hw c hc
    simp only [walkEntry, hig, if_true] at hw
    cases hw
    exact Or.inl hc
  · -- file whose read fails: the walk errors, no ok result
    intro segs acc r content hig err hgen cs hw
    rw [Bool.not_eq_true] at hig
    simp [walkEntry, hig, hgen] at hw
  · -- hashed file: exactly one entry appended
    intro segs acc r content hig checksum hchk cs hw c hc
    rw [Bool.not_eq_true] at hig
    cases r with
    | false => simp [generateSHA1Checksum, readFileResult] at hchk
    | true =>
      simp only [generateSHA1Checksum, readFileResult, if_true,
        Except.ok.injEq] at hchk
      simp only [walkEntry, hig, Bool.false_eq_true, if_false, generateSHA1Checksum,
        readFileResult, if_true, Except.ok.injEq] at hw
      subst hw
      rcases List.mem_append.mp hc with hc | hc
      · exact Or.inl hc
      · refine Or.inr ⟨[], content, .file content, ?_⟩
        simp only [List.mem_singleton] at hc
        simp [hc, ← hchk]
  · -- ignored directory: pruned, accumulator unchanged
    intro segs acc r children hig cs hw c hc
    simp only [walkEntry, hig, if_true] at hw
    cases hw
    exact Or.inl hc
  · -- readable directory: every new entry comes from some child
    intro segs acc children hig ih cs hw c hc
    rw [Bool.not_eq_true] at hig
    simp only [walkEntry, hig, Bool.false_eq_true, if_false, if_true] at hw
    rcases ih cs hw c hc with h | ⟨name, e, rest, b, hmem, hfile, hceq⟩
    · exact Or.inl h
    · exact Or.inr ⟨name :: rest, b, .child hmem hfile, hceq⟩
  · -- unreadable directory: the walk errors, no ok result
    intro segs acc r children hig hr cs hw
    rw [Bool.not_eq_true] at hig
    rw [Bool.not_eq_true] at hr
    simp [walkEntry, hig, hr] at hw
  · -- end of a directory listing
    intro segs acc cs hw c hc
    cases hw
    exact Or.inl hc
  · -- a failing child aborts the listing, no ok result
    intro segs acc n e rest err hfail ih cs hw
    simp [walkChildren, hfail] at hw
  · -- successful child, then the remaining entries
    intro segs acc n e rest acc2 hok ih1 ih2 cs hw c hc
    simp only [walkChildren, hok] at hw
    rcases ih2 cs hw c hc with hc2 | ⟨name, e₁, rest₁, b, hmem, hfile, hceq⟩
    · rcases ih1 acc2 hok c hc2 with h | ⟨rest₂, b, hfile, hceq⟩
      · exact Or.inl h
      · refine Or.inr ⟨n, e, rest₂, b, List.mem_cons_self _ _, hfile, ?_⟩
        simpa [List.append_assoc] using hceq
    · exact Or.inr ⟨name, e₁, rest₁, b, List.mem_cons_of_mem _ hmem, hfile, hceq⟩

theorem calculateChecksums_ok_mem {root : String} {pats : List String} {fs : FsEntry}
    {cs : List FileChecksum} (h : calculateChecksums root fs pats = .ok cs) :
    ∀ c ∈ cs, ∃ rest b, IsFileAt fs rest b ∧ c = ⟨relString rest, sha1Hex b⟩ := by
  intro c hc
  unfold calculateChecksums at h
  cases hw : walkEntry root pats [] (normalizeFs fs) [] with
  | error err =>
    rw [hw] at h
    cases h
  | ok cs₀ =>
    rw [hw] at h
    obtain rfl : cs₀ = cs := by injection h
    rcases walkEntry_ok_mem root pats [] (normalizeFs fs) [] cs₀ hw c hc with
      hmem | ⟨rest, b, hfile, hceq⟩
    · cases hmem
    · exact ⟨rest, b, isFileAt_normalize rest fs b hfile, by simpa using hceq⟩

/-! ### Helper lemmas: an empty ignore pattern prunes the root -/

theorem calculateChecksums_empty_pattern {pats : List String} (h : "" ∈ pats)
    (root : String) (fs : FsEntry) : calculateChecksums root fs pats = .ok [] := by
  unfold calculateChecksums
  cases hn : normalizeFs fs with
  | file r c => simp [walkEntry, isIgnored_of_empty_mem h]
  | dir r children => simp [walkEntry, isIgnored_of_empty_mem h]

/-! ### The claims -/

set_option maxRecDepth 1000000

/-- Claim C1: for every regular file that is hashed, the checksum string is the
SHA-1 digest of the file's entire byte content rendered as a 40-character
lowercase hexadecimal string; in particular, for the byte content `"hello"`
the checksum is `"aaf4c61ddcc5e8a2dabede0f3b482cd9aea9434d"`. -/
theorem C1_checksum_is_sha1_hex (data : Bytes) :
    generateSHA1Checksum (.ok data) = .ok (sha1Hex data) ∧
    (sha1Hex data).length = 40 ∧
    (∀ c ∈ (sha1Hex data).data, c ∈ hexDigitChars) ∧
    sha1Hex (strBytes "hello") = "aaf4c61ddcc5e8a2dabede0f3b482cd9aea9434d" :=
  ⟨rfl, sha1Hex_length data, sha1Hex_data_mem data, by decide⟩

/-- Claim C2: a visited entry is ignored iff its root-relative path starts
(plain string prefix, not path-segment-aware) with at least one pattern of
the ignore specification; with ignore list `["build"]` both `build/out.bin`
and `build2/out.bin` are excluded while `src/build.go` is included, also in
an end-to-end run. -/
theorem C2_ignore_prefix_semantics (relativePath : String) (pats : List String) :
    (isIgnored relativePath pats = true ↔ ∃ p ∈ pats, p.data <+: relativePath.data) ∧
    isIgnored "build/out.bin" ["build"] = true ∧
    isIgnored "build2/out.bin" ["build"] = true ∧
    isIgnored "src/build.go" ["build"] = false ∧
    calculateChecksums "/project"
      (.dir true [("build", .dir true [("out.bin", .file true [0])]),
                  ("build2", .dir true [("out.bin", .file true [1])]),
                  ("src", .dir true [("build.go", .file true [2])])])
      ["build"] = .ok [⟨"src/build.go", sha1Hex [2]⟩] :=
  ⟨isIgnored_iff relativePath pats, by decide, by decide, by decide, by decide⟩

/-- Claim C3: an ignored directory is pruned — the walk does not descend, no
entry from its subtree reaches the manifest, and unreadable or malformed
contents inside it never cause an error (the result does not depend on the
children at all); an ignored file is skipped while traversal continues with
its siblings. -/
theorem C3_ignored_pruning (root : String) (pats : List String) (segs : List String)
    (acc : List FileChecksum) (hig : isIgnored (relString segs) pats = true) :
    (∀ r children, walkEntry root pats segs (.dir r children) acc = .ok acc) ∧
    (∀ r content, walkEntry root pats segs (.file r content) acc = .ok acc) ∧
    (∀ name e rest, isIgnored (relString (segs ++ [name])) pats = true →
      walkChildren root pats segs ((name, e) :: rest) acc =
        walkChildren root pats segs rest acc) ∧
    calculateChecksums "/project"
      (.dir true [("a.txt", .file true [7]),
                  ("build", .dir true [("bad", .file false [0]), ("worse", .dir false [])])])
      ["build"] = .ok [⟨"a.txt", sha1Hex [7]⟩] := by
  refine ⟨?_, ?_, ?_, by decide⟩
  · intro r children
    simp [walkEntry, hig]
  · intro r content
    simp [walkEntry, hig]
  · intro name e rest hig2
    cases e with
    | file r c => simp [walkChildren, walkEntry, hig2]
    | dir r children => simp [walkChildren, walkEntry, hig2]

theorem C3_witness :
    walkEntry "/r" ["build"] ["build"] (.dir false [("bad", .file false [])]) [] = .ok [] ∧
    walkEntry "/r" ["build"] ["build"] (.file false [1]) [] = .ok [] ∧
    walkChildren "/r" ["build"] ["build"] [("z", .file false [])] [] =
      walkChildren "/r" ["build"] ["build"] [] [] ∧
    calculateChecksums "/project"
      (.dir true [("a.txt", .file true [7]),
                  ("build", .dir true [("bad", .file false [0]), ("worse", .dir false [])])])
      ["build"] = .ok [⟨"a.txt", sha1Hex [7]⟩] := by
  have h := C3_ignored_pruning "/r" ["build"] ["build"] [] (by decide)
  exact ⟨h.1 false [("bad", .file false [])], h.2.1 false [1],
    h.2.2.1 "z" (.file false []) [] (by decide), h.2.2.2⟩

/-- Claim C4: any error reading a directory during traversal and any error
reading a file for checksum computation aborts the run: the file case is
wrapped with the offending path, a child error aborts the whole listing,
`calculateChecksums` wraps every walk error as a walk error and returns no
manifest, and `main` writes no output file. -/
theorem C4_errors_abort (root : String) (pats : List String) :
    (∀ segs acc content, isIgnored (relString segs) pats = false →
      walkEntry root pats segs (.file false content) acc =
        .error (.checksumFailed (joinPath root segs) (.osError "open" (joinPath root segs)))) ∧
    (∀ segs acc children, isIgnored (relString segs) pats = false →
      walkEntry root pats segs (.dir false children) acc =
        .error (.osError "open" (joinPath root segs))) ∧
    (∀ segs acc name e rest err, walkEntry root pats (segs ++ [name]) e acc = .error err →
      walkChildren root pats segs ((name, e) :: rest) acc = .error err) ∧
    (∀ fs err, walkEntry root pats [] (normalizeFs fs) [] = .error err →
      calculateChecksums root fs pats = .error (.walkFailed err)) ∧
    (∀ outFlag ignoreFlag fs err,
      calculateChecksums root fs (if ignoreFlag = "" then [] else stringsSplit ignoreFlag ',') =
        .error err →
      mainRun root outFlag ignoreFlag fs = none) := by
  refine ⟨?_, ?_, ?_, ?_, ?_⟩
  · intro segs acc content hig
    simp [walkEntry, hig, generateSHA1Checksum, readFileResult]
  · intro segs acc children hig
    simp [walkEntry, hig]
  · intro segs acc name e rest err herr
    simp [walkChildren, herr]
  · intro fs err hw
    unfold calculateChecksums
    rw [hw]
  · intro outFlag ignoreFlag fs err hc
    simp only [mainRun]
    rw [hc]

theorem C4_witness :
    walkEntry "/r" [] ["f"] (.file false [9]) [] =
      .error (.checksumFailed "/r/f" (.osError "open" "/r/f")) ∧
    walkEntry "/r" [] ["d"] (.dir false []) [] = .error (.osError "open" "/r/d") ∧
    walkChildren "/r" [] [] [("f", .file false [9]), ("g", .file true [])] [] =
      .error (.checksumFailed "/r/f" (.osError "open" "/r/f")) ∧
    calculateChecksums "/r" (.file false [1]) [] =
      .error (.walkFailed (.checksumFailed "/r" (.osError "open" "/r"))) ∧
    mainRun "/r" none "" (.file false [1]) = none := by
  have h := C4_errors_abort "/r" []
  exact ⟨h.1 ["f"] [] [9] (by decide), h.2.1 ["d"] [] [] (by decide),
    h.2.2.1 [] [] "f" (.file false [9]) [("g", .file true [])] _ (by decide),
    h.2.2.2.1 (.file false [1]) _ (by decide),
    h.2.2.2.2 none "" (.file false [1]) (.walkFailed (.checksumFailed "/r" (.osError "open" "/r"))) (by decide)⟩

/-- Claim C5: no directory ever contributes a manifest entry — every entry of
a successful run is the relative path and content digest of a readable
regular file of the tree; consequently a tree of only (readable) empty
subdirectories and no files yields the empty manifest for every ignore
specification. -/
theorem C5_no_directory_entries :
    (∀ root pats fs cs, calculateChecksums root fs pats = .ok cs →
      ∀ c ∈ cs, ∃ rest b, IsFileAt fs rest b ∧ c = ⟨relString rest, sha1Hex b⟩) ∧
    (∀ root pats fs, onlyDirs fs = true → calculateChecksums root fs pats = .ok []) :=
  ⟨fun _ _ _ _ h => calculateChecksums_ok_mem h,
   fun root pats fs h => calculateChecksums_onlyDirs root pats fs h⟩

theorem C5_witness :
    (∃ rest b, IsFileAt (.file true [3]) rest b ∧
      (⟨".", sha1Hex [3]⟩ : FileChecksum) = ⟨relString rest, sha1Hex b⟩) ∧
    calculateChecksums "/r" (.dir true [("e", .dir true []), ("e2", .dir true [("e3", .dir true [])])]) ["x"] = .ok [] := by
  have h := C5_no_directory_entries
  exact ⟨h.1 "/r" [] (.file true [3]) [⟨".", sha1Hex [3]⟩] (by decide) _
      (List.mem_singleton.mpr rfl),
    h.2 "/r" ["x"] _ (by decide)⟩

/-- Claim C6: the serialized artifact of a manifest is a sequence of objects
each with exactly the two string fields `"path"` and `"checksum"`, rendered
with 2-space indentation (the entry-less manifest is Go's `nil` slice and
serializes as `null`); decoding the serialization yields the manifest back,
and in a successful run every checksum field is a 40-character lowercase
hexadecimal string. -/
theorem C6_serialization_round_trip :
    (∀ cs : List FileChecksum, cs ≠ [] →
      manifestToJson cs =
        .arr (cs.map (fun c => .obj [("path", .str c.path), ("checksum", .str c.checksum)]))) ∧
    (∀ cs : List FileChecksum, decodeManifest (manifestToJson cs) = some cs) ∧
    (∀ root pats fs cs, calculateChecksums root fs pats = .ok cs →
      ∀ c ∈ cs, c.checksum.length = 40 ∧ ∀ ch ∈ c.checksum.data, ch ∈ hexDigitChars) ∧
    saveToFile [⟨"a.txt", "aa"⟩] =
      "[\n  \x7b\n    \"path\": \"a.txt\",\n    \"checksum\": \"aa\"\n  \x7d\n]" := by
  refine ⟨?_, decodeManifest_roundtrip, ?_, by decide⟩
  · intro cs h
    cases cs with
    | nil => simp at h
    | cons c rest => rfl
  · intro root pats fs cs h c hc
    obtain ⟨rest, b, _, hceq⟩ := calculateChecksums_ok_mem h c hc
    subst hceq
    exact ⟨sha1Hex_length b, sha1Hex_data_mem b⟩

theorem C6_witness :
    manifestToJson [⟨"a.txt", "aa"⟩] =
      .arr [.obj [("path", .str "a.txt"), ("checksum", .str "aa")]] ∧
    decodeManifest (manifestToJson [⟨"a.txt", "aa"⟩]) = some [⟨"a.txt", "aa"⟩] ∧
    ((⟨".", sha1Hex [3]⟩ : FileChecksum).checksum.length = 40 ∧
      ∀ ch ∈ (⟨".", sha1Hex [3]⟩ : FileChecksum).checksum.data, ch ∈ hexDigitChars) := by
  have h := C6_serialization_round_trip
  exact ⟨h.1 [⟨"a.txt", "aa"⟩] (by decide), h.2.1 [⟨"a.txt", "aa"⟩],
    h.2.2.1 "/r" [] (.file true [3]) [⟨".", sha1Hex [3]⟩] (by decide) _
      (List.mem_singleton.mpr rfl)⟩

/-- Claim C7: the manifest builder is deterministic — on a fixed tree with
fixed arguments two runs produce identical results, and byte-identical file
contents always produce identical digest strings. -/
theorem C7_determinism (root : String) (fs : FsEntry) (pats : List String)
    (d1 d2 : Bytes) (h : d1 = d2) :
    calculateChecksums root fs pats = calculateChecksums root fs pats ∧
    generateSHA1Checksum (.ok d1) = generateSHA1Checksum (.ok d2) ∧
    sha1Hex d1 = sha1Hex d2 :=
  ⟨rfl, by rw [h], by rw [h]⟩

theorem C7_witness :
    calculateChecksums "/r" (.file true [104]) [] = calculateChecksums "/r" (.file true [104]) [] ∧
    generateSHA1Checksum (.ok [104, 105]) = generateSHA1Checksum (.ok [104, 105]) ∧
    sha1Hex [104, 105] = sha1Hex [104, 105] :=
  C7_determinism "/r" (.file true [104]) [] [104, 105] [104, 105] rfl

/-- Claim C8: the output artifact is written at the join of the absolute
resolved root directory with the `--output` value — resolved relative to the
root directory, not the process working directory — and the `--output`
default is `"checksums.json"`. -/
theorem C8_output_path (projectDir : String) (outputFlag : Option String)
    (ignoreFlag : String) (fsv : FsEntry) (res : String × List FileChecksum)
    (h : mainRun projectDir outputFlag ignoreFlag fsv = some res) :
    res.1 = filepathJoin projectDir (outputFlag.getD defaultOutputFile) ∧
    res.1 = projectDir ++ "/" ++ outputFlag.getD defaultOutputFile ∧
    defaultOutputFile = "checksums.json" := by
  simp only [mainRun] at h
  cases hc : calculateChecksums projectDir fsv
      (if ignoreFlag = "" then [] else stringsSplit ignoreFlag ',') with
  | error e =>
    rw [hc] at h
    cases h
  | ok cs =>
    rw [hc] at h
    simp only [Option.some.injEq] at h
    subst h
    exact ⟨rfl, rfl, rfl⟩

theorem C8_witness :
    ("/p/checksums.json", ([⟨".", sha1Hex []⟩] : List FileChecksum)).1 =
      filepathJoin "/p" ((none : Option String).getD defaultOutputFile) ∧
    ("/p/checksums.json", ([⟨".", sha1Hex []⟩] : List FileChecksum)).1 =
      "/p" ++ "/" ++ (none : Option String).getD defaultOutputFile ∧
    defaultOutputFile = "checksums.json" :=
  C8_output_path "/p" none "" (.file true []) ("/p/checksums.json", [⟨".", sha1Hex []⟩])
    (by decide)

/-- Claim C9: a non-empty `--ignore` value that splits to an empty-string
pattern (leading, trailing or doubled comma) makes every relative path —
the root's own `"."` included — match by prefix, so the root is pruned at
the first visited entry and every tree yields an empty manifest. -/
theorem C9_empty_pattern_prunes_root (ignoreFlag : String) (hne : ignoreFlag ≠ "")
    (hmem : "" ∈ stringsSplit ignoreFlag ',') :
    (∀ s : String, "".data.isPrefixOf s.data = true) ∧
    (∀ rel : String, isIgnored rel (stringsSplit ignoreFlag ',') = true) ∧
    (∀ root fs, calculateChecksums root fs (stringsSplit ignoreFlag ',') = .ok []) ∧
    (∀ root outFlag fs, mainRun root outFlag ignoreFlag fs =
      some (filepathJoin root (outFlag.getD defaultOutputFile), [])) ∧
    stringsSplit "a," ',' = ["a", ""] ∧
    stringsSplit ",a" ',' = ["", "a"] ∧
    stringsSplit "a,,b" ',' = ["a", "", "b"] := by
  refine ⟨empty_isPrefixOf, isIgnored_of_empty_mem hmem,
    calculateChecksums_empty_pattern hmem, ?_, rfl, rfl, rfl⟩
  intro root outFlag fs
  simp only [mainRun, hne, if_false, if_neg hne]
  rw [calculateChecksums_empty_pattern hmem root fs]

theorem C9_witness :
    isIgnored "." (stringsSplit "a," ',') = true ∧
    calculateChecksums "/r" (.dir true [("x", .file true [7])]) (stringsSplit "a," ',') = .ok [] ∧
    mainRun "/r" none "a," (.dir true [("x", .file true [7])]) = some ("/r/checksums.json", []) := by
  have h := C9_empty_pattern_prunes_root "a," (by decide) (by decide)
  exact ⟨h.2.1 ".", h.2.2.1 "/r" _, h.2.2.2.1 "/r" none _⟩

/-- Claim C10: the manifest lists entries in the fixed depth-first traversal
order in which each directory's children are visited in lexicographic
filename order (as `filepath.WalkDir` guarantees via sorted `os.ReadDir`
listings), and the order is reproducible across runs on an unchanged tree. -/
theorem C10_traversal_order :
    (∀ l : List (String × FsEntry), (sortByName l).Perm l) ∧
    (∀ l : List (String × FsEntry), List.Sorted nameLe (sortByName l)) ∧
    (∀ r children, normalizeFs (.dir r children) =
      .dir r (sortByName (normalizeChildren children))) ∧
    (∀ root fs pats, calculateChecksums root fs pats = calculateChecksums root fs pats) ∧
    calculateChecksums "/r"
      (.dir true [("b.txt", .file true [2]), ("a.txt", .file true [1]),
                  ("sub", .dir true [("z.txt", .file true [3]), ("y.txt", .file true [4])])])
      [] =
      .ok [⟨"a.txt", sha1Hex [1]⟩, ⟨"b.txt", sha1Hex [2]⟩,
           ⟨"sub/y.txt", sha1Hex [4]⟩, ⟨"sub/z.txt", sha1Hex [3]⟩] :=
  ⟨sortByName_perm, sortByName_sorted, fun _ _ => rfl, fun _ _ _ => rfl, by decide⟩
